import Mathlib

/-!
Verification of the real-time speech transcription core
(`backend/speech_processor.py`, `backend/websocket_manager.py`,
`backend/database.py`, `backend/models.py`).

Shallow embedding conventions:
* times, confidences and audio samples are modelled as rationals (the source
  uses Python floats; none of the verified properties depend on rounding);
* the external model calls (Whisper transcription, pyannote diarization,
  pyannote embedding extraction, sklearn `cosine_similarity`) are abstracted
  as explicit parameters holding the call's outcome — an `Except`/`Option`
  value for a call that the source wraps in `try/except`, and a plain
  similarity function for `cosine_similarity`;
* Python dictionaries with insertion order (`known_speakers`,
  `active_connections`, `session_connections`, the Mongo session store) are
  modelled as association lists, and Python sets as lists of members;
* Python's `str.strip()` is modelled on ASCII whitespace (`pyStrip`).
-/

namespace SpeechRec

/-- Python `str.strip()`: drop leading and trailing whitespace characters. -/
def pyStrip (s : String) : String :=
  ⟨((s.data.dropWhile Char.isWhitespace).reverse.dropWhile Char.isWhitespace).reverse⟩

/-- A transcript span as produced by the transcriber: start time, end time
(seconds) and raw text (`transcription["segments"][i]`). -/
structure TransSeg where
  start : ℚ
  stop : ℚ
  text : String
deriving DecidableEq, Repr

/-- A diarization turn: a time interval labelled with a speaker
(`diarization["segments"][i]`). -/
structure DiarSeg where
  start : ℚ
  stop : ℚ
  speaker : String
deriving DecidableEq, Repr

/-- The transcriber's result dictionary: full text plus the list of spans. -/
structure Transcription where
  text : String
  segments : List TransSeg
deriving DecidableEq, Repr

/-- A speaker-attributed output segment (`models.SpeakerSegment`). -/
structure SpeakerSegment where
  speaker_id : String
  start_time : ℚ
  end_time : ℚ
  text : String
  confidence : ℚ
deriving DecidableEq, Repr

/-- Overlap duration between a transcript span and a diarization turn, as
computed in `align_transcription_with_diarization`:
`max(0, min(trans_end, diar_end) - max(trans_start, diar_start))`. -/
def overlapDuration (transStart transEnd diarStart diarEnd : ℚ) : ℚ :=
  max 0 (min transEnd diarEnd - max transStart diarStart)

/-- One iteration of the best-overlap loop of
`align_transcription_with_diarization`: the accumulator is
`(best_speaker, best_overlap)`, replaced when the current turn's overlap
strictly exceeds the best seen so far (`if overlap_duration > best_overlap`). -/
def bestStep (transStart transEnd : ℚ) (acc : String × ℚ) (d : DiarSeg) : String × ℚ :=
  let od := overlapDuration transStart transEnd d.start d.stop
  if od > acc.2 then (d.speaker, od) else acc

/-- The loop over the diarization turns, started from `("Unknown", 0)`. -/
def findBest (transStart transEnd : ℚ) (ds : List DiarSeg) : String × ℚ :=
  ds.foldl (bestStep transStart transEnd) ("Unknown", 0)

/-- The `SpeakerSegment` built for one transcript span on the
diarization-available path of `align_transcription_with_diarization`;
its confidence is 0.8 when the best overlap is positive and 0.3 otherwise. -/
def segOf (ds : List DiarSeg) (t : TransSeg) : SpeakerSegment :=
  let best := findBest t.start t.stop ds
  ⟨best.1, t.start, t.stop, pyStrip t.text, if best.2 > 0 then mkRat 8 10 else mkRat 3 10⟩

/-- Per-span processing on the diarization-available path: a span whose
stripped text is empty is skipped (`if not trans_text: continue`). -/
def alignOne (ds : List DiarSeg) (t : TransSeg) : Option SpeakerSegment :=
  if pyStrip t.text = "" then none else some (segOf ds t)

/-- The fallback of `align_transcription_with_diarization` taken when
diarization is unavailable (or the transcription has no spans): every span
becomes a `Speaker_1` segment with confidence 0.5 carrying its raw text. -/
def fallbackSegments (tss : List TransSeg) : List SpeakerSegment :=
  tss.map fun t => ⟨"Speaker_1", t.start, t.stop, t.text, mkRat 1 2⟩

/-- `SpeechProcessor.align_transcription_with_diarization`.  `diarization` is
`none` when `diarize_audio` returned `None` (pipeline unavailable or failed). -/
def align_transcription_with_diarization (transcription : Transcription)
    (diarization : Option (List DiarSeg)) : List SpeakerSegment :=
  match diarization with
  | none => fallbackSegments transcription.segments
  | some ds =>
    if transcription.segments = [] then fallbackSegments transcription.segments
    else transcription.segments.filterMap (alignOne ds)

/-- Overlap of one diarization turn with the fixed transcript span. -/
def turnOverlap (transStart transEnd : ℚ) (d : DiarSeg) : ℚ :=
  overlapDuration transStart transEnd d.start d.stop

/-- A voice embedding: a fixed-dimension float vector. -/
abbrev Embedding := List ℚ

/-- One iteration of the loop of `identify_speaker`: the accumulator is
`(best_match, best_similarity)`, replaced when the current registry entry's
similarity strictly exceeds the best so far
(`if similarity > best_similarity`). -/
def identifyStep (sim : Embedding → Embedding → ℚ) (e : Embedding)
    (acc : Option String × ℚ) (entry : String × Embedding) : Option String × ℚ :=
  let s := sim e entry.2
  if s > acc.2 then (some entry.1, s) else acc

/-- `SpeechProcessor.identify_speaker`.  `sim` abstracts sklearn's
`cosine_similarity` of two embeddings; `known` is the `known_speakers`
dictionary as an insertion-ordered association list; `embedding` is the query
(`None` allowed, as in the source); `threshold` defaults to 0.8 at the call
site.  `best_similarity` starts at the threshold itself, so only a strictly
greater similarity ever sets `best_match`. -/
def identify_speaker (sim : Embedding → Embedding → ℚ)
    (known : List (String × Embedding)) (embedding : Option Embedding)
    (threshold : ℚ) : Option String :=
  match embedding with
  | none => none
  | some e =>
    if known = [] then none
    else (known.foldl (identifyStep sim e) (none, threshold)).1

/-- Dot product of two vectors, used in witnesses as the concrete similarity:
for unit-length vectors the cosine similarity is exactly the dot product. -/
def dotSim (x y : List ℚ) : ℚ := (List.zipWith (· * ·) x y).sum

/-- Python `int()` truncation toward zero. -/
def pyInt (q : ℚ) : ℤ := if 0 ≤ q then ⌊q⌋ else ⌈q⌉

/-- Python list slicing `a[i:j]` (step 1): a negative bound counts from the
end, then both bounds are clamped to `[0, len a]`. -/
def pySlice (a : List ℚ) (i j : ℤ) : List ℚ :=
  let n : ℤ := a.length
  let lo := (if i < 0 then i + n else i).toNat.min a.length
  let hi := (if j < 0 then j + n else j).toNat.min a.length
  (a.take hi).drop lo

/-- `SpeechProcessor.get_speaker_embedding`.  `embedding_model` is `none` when
the pyannote embedding model failed to initialize; `rawEmb` is the outcome of
the external embedding call on the extracted window (`none` covering both a
raised exception and an empty answer).  The sub-window check
`len(segment_audio) < self.sample_rate * 0.5` returns `None` without invoking
the external model. -/
def get_speaker_embedding (embedding_model : Option Unit) (rawEmb : Option Embedding)
    (sample_rate : ℕ) (audio : List ℚ) (start_time end_time : ℚ) : Option Embedding :=
  match embedding_model with
  | none => none
  | some _ =>
    let start_sample := pyInt (start_time * sample_rate)
    let end_sample := pyInt (end_time * sample_rate)
    let segment_audio := pySlice audio start_sample end_sample
    if (segment_audio.length : ℚ) < (sample_rate : ℚ) * mkRat 1 2 then none
    else rawEmb

/-- The fields of `SpeechProcessor` relevant to chunk processing, with an
abstract similarity function standing for sklearn's `cosine_similarity`.
A model field is `none` when that model failed to initialize. -/
structure Processor where
  whisper_model : Option Unit
  diarization_pipeline : Option Unit
  embedding_model : Option Unit
  sample_rate : ℕ
  known_speakers : List (String × Embedding)
  sim : Embedding → Embedding → ℚ

/-- The empty Whisper result built when transcription raises
(`return {"text": "", "segments": []}`). -/
def emptyTranscription : Transcription := ⟨"", []⟩

/-- `SpeechProcessor.transcribe_audio`: raises `RuntimeError` (modelled as
`Except.error`) when the Whisper model is not initialized; otherwise the
external call's outcome is returned, an exception being caught and replaced
by the empty result. -/
def transcribe_audio (p : Processor) (raw : Except Unit Transcription) :
    Except Unit Transcription :=
  match p.whisper_model with
  | none => .error ()
  | some _ =>
    match raw with
    | .error _ => .ok emptyTranscription
    | .ok t => .ok t

/-- `SpeechProcessor.diarize_audio`: `None` when the pipeline is not
configured and when the external call raises; the turn list otherwise. -/
def diarize_audio (p : Processor) (raw : Except Unit (List DiarSeg)) :
    Option (List DiarSeg) :=
  match p.diarization_pipeline with
  | none => none
  | some _ =>
    match raw with
    | .error _ => none
    | .ok ds => some ds

/-- The per-segment body of the speaker-identification loop of
`process_audio_chunk`: fetch an embedding for the segment's window; on a
match overwrite `speaker_id` (`if known_speaker:` also rejects an empty
name, Python's falsy string). -/
def identifySegment (p : Processor) (rawEmb : ℚ → ℚ → Option Embedding)
    (audio : List ℚ) (seg : SpeakerSegment) : SpeakerSegment :=
  match get_speaker_embedding p.embedding_model (rawEmb seg.start_time seg.end_time)
      p.sample_rate audio seg.start_time seg.end_time with
  | none => seg
  | some e =>
    match identify_speaker p.sim p.known_speakers (some e) (mkRat 8 10) with
    | none => seg
    | some n => if n = "" then seg else ⟨n, seg.start_time, seg.end_time, seg.text, seg.confidence⟩

/-- The speaker-identification loop of `process_audio_chunk` over the aligned
segments. -/
def identifyPass (p : Processor) (rawEmb : ℚ → ℚ → Option Embedding)
    (audio : List ℚ) (segments : List SpeakerSegment) : List SpeakerSegment :=
  segments.map (identifySegment p rawEmb audio)

/-- The outcome of `SpeechProcessor.preprocess_audio`: the decoded and
resampled sample buffer, an exception during decoding being caught and
replaced by the empty array. -/
def preprocess_audio (decoded : Except Unit (List ℚ)) : List ℚ :=
  match decoded with
  | .error _ => []
  | .ok a => a

/-- The `try` block of `SpeechProcessor.process_audio_chunk`; an
`Except.error` is an exception escaping to the chunk-level handler. -/
def process_audio_chunk_body (p : Processor) (decoded : Except Unit (List ℚ))
    (rawT : Except Unit Transcription) (rawD : Except Unit (List DiarSeg))
    (rawEmb : ℚ → ℚ → Option Embedding) : Except Unit (List SpeakerSegment) :=
  let audio := preprocess_audio decoded
  if audio.length = 0 then .ok []
  else
    match transcribe_audio p rawT with
    | .error e => .error e
    | .ok transcription =>
      let diarization := diarize_audio p rawD
      let segments := align_transcription_with_diarization transcription diarization
      .ok (identifyPass p rawEmb audio segments)

/-- `SpeechProcessor.process_audio_chunk`: any exception raised inside the
chunk is caught and an empty segment list is returned. -/
def process_audio_chunk (p : Processor) (decoded : Except Unit (List ℚ))
    (rawT : Except Unit Transcription) (rawD : Except Unit (List DiarSeg))
    (rawEmb : ℚ → ℚ → Option Embedding) : List SpeakerSegment :=
  match process_audio_chunk_body p decoded rawT rawD rawEmb with
  | .error _ => []
  | .ok segs => segs

/-- The server-to-client events relevant to the verified claims. -/
inductive ServerMessage where
  | session_stopped (session_id : String)
  | new_segments (session_id : String) (segments : List SpeakerSegment)
  | other (tag : String)
deriving DecidableEq, Repr

/-- The connection state of `ConnectionManager`: the key set of
`active_connections` and the `session_connections` map (session id to the
members of that session). -/
structure ManagerState where
  active : List String
  sessions : List (String × List String)
deriving DecidableEq, Repr

/-- The log of successful transports: `(connection_id, message)` pairs in
delivery order. -/
abbrev DeliveryLog := List (String × ServerMessage)

/-- `ConnectionManager.disconnect`: drop the connection from
`active_connections` and discard it from every session's membership set. -/
def disconnect (st : ManagerState) (cid : String) : ManagerState :=
  ⟨st.active.filter (fun c => c != cid),
    st.sessions.map fun p => (p.1, p.2.filter (fun c => c != cid))⟩

/-- `ConnectionManager.send_personal_message`: unknown connections are
skipped; a transport failure (`failing cid = true`, the `except` branch)
disconnects that connection; otherwise the message is delivered. -/
def send_personal_message (failing : String → Bool) (msg : ServerMessage)
    (cid : String) (st : ManagerState) (log : DeliveryLog) :
    ManagerState × DeliveryLog :=
  if cid ∈ st.active then
    if failing cid then (disconnect st cid, log)
    else (st, log ++ [(cid, msg)])
  else (st, log)

/-- Lookup of a session's membership set in `session_connections`. -/
def lookupSession (st : ManagerState) (sid : String) : Option (List String) :=
  (st.sessions.find? fun p => p.1 == sid).map Prod.snd

/-- `ConnectionManager.broadcast_to_session`: iterate over a snapshot
(`.copy()`) of the session's membership, sending to each member in turn. -/
def broadcast_to_session (failing : String → Bool) (msg : ServerMessage)
    (sid : String) (st : ManagerState) (log : DeliveryLog) :
    ManagerState × DeliveryLog :=
  match lookupSession st sid with
  | none => (st, log)
  | some members =>
    members.foldl (fun acc cid => send_personal_message failing msg cid acc.1 acc.2) (st, log)

/-- The session document fields used by the verified claims
(`models.TranscriptSession` as stored in Mongo). -/
structure StoredSession where
  status : String
  segments : List SpeakerSegment
deriving DecidableEq, Repr

/-- The Mongo `transcript_sessions` collection keyed by session id. -/
abbrev SessionStore := List (String × StoredSession)

/-- `TranscriptRepository.update_session` restricted to the fields the
handlers set: a `$set` of `status` on the matching document, a no-op when the
id matches nothing. -/
def setSessionStatus (store : SessionStore) (sid : String) (status : String) :
    SessionStore :=
  store.map fun p => if p.1 == sid then (p.1, ⟨status, p.2.segments⟩) else p

/-- `TranscriptRepository.add_segment`: `$push` one segment onto the matching
document's `segments` array, a no-op when the id matches nothing. -/
def add_segment (store : SessionStore) (sid : String) (seg : SpeakerSegment) :
    SessionStore :=
  store.map fun p => if p.1 == sid then (p.1, ⟨p.2.status, p.2.segments ++ [seg]⟩) else p

/-- Session-document lookup. -/
def lookupStore (store : SessionStore) (sid : String) : Option StoredSession :=
  (store.find? fun p => p.1 == sid).map Prod.snd

/-- The combined server state seen by the WebSocket handlers. -/
structure SystemState where
  conns : ManagerState
  store : SessionStore

/-- `ConnectionManager.handle_stop_session` on a present session id: set the
stored status to `"completed"`, broadcast `session_stopped` to the session,
then delete the session's membership set. -/
def handle_stop_session (failing : String → Bool) (sys : SystemState)
    (sid : String) : SystemState × DeliveryLog :=
  let store1 := setSessionStatus sys.store sid "completed"
  let r := broadcast_to_session failing (.session_stopped sid) sid sys.conns []
  (⟨⟨r.1.active, r.1.sessions.filter fun p => p.1 != sid⟩, store1⟩, r.2)

/-- `ConnectionManager.handle_audio_data` on a present session id, after the
chunk has been processed into `segments`: append each segment to the stored
document in order, then — only when the list is non-empty — broadcast one
`new_segments` event carrying the whole list. -/
def handle_audio_data (failing : String → Bool) (sys : SystemState)
    (sid : String) (segments : List SpeakerSegment) : SystemState × DeliveryLog :=
  let store1 := segments.foldl (fun st seg => add_segment st sid seg) sys.store
  if segments = [] then (⟨sys.conns, store1⟩, [])
  else
    let r := broadcast_to_session failing (.new_segments sid segments) sid sys.conns []
    (⟨r.1, store1⟩, r.2)

lemma turnOverlap_nonneg (ts te : ℚ) (d : DiarSeg) : 0 ≤ turnOverlap ts te d :=
  le_max_left _ _

/-- Invariant of the best-overlap loop: either no turn improved on the initial
accumulator, or the final accumulator comes from the first turn attaining the
maximal overlap among the turns that strictly beat the initial best. -/
lemma bestFold_spec (ts te : ℚ) (l : List DiarSeg) (bs : String) (bo : ℚ) :
    (l.foldl (bestStep ts te) (bs, bo) = (bs, bo) ∧ ∀ d ∈ l, turnOverlap ts te d ≤ bo)
  ∨ (∃ l1 d l2, l = l1 ++ d :: l2
      ∧ l.foldl (bestStep ts te) (bs, bo) = (d.speaker, turnOverlap ts te d)
      ∧ bo < turnOverlap ts te d
      ∧ (∀ d' ∈ l1, turnOverlap ts te d' < turnOverlap ts te d)
      ∧ (∀ d' ∈ l, turnOverlap ts te d' ≤ turnOverlap ts te d)) := by
  induction l generalizing bs bo with
  | nil => exact Or.inl ⟨rfl, by simp⟩
  | cons d l ih =>
    have hstep : ∀ a : String × ℚ,
        bestStep ts te a d
          = if turnOverlap ts te d > a.2 then (d.speaker, turnOverlap ts te d) else a := by
      intro a; rfl
    by_cases h : turnOverlap ts te d > bo
    · rw [List.foldl_cons, hstep, if_pos h]
      rcases ih d.speaker (turnOverlap ts te d) with ⟨heq, hle⟩ | ⟨l1, d', l2, hsplit, heq, hlt, hfirst, hmax⟩
      · refine Or.inr ⟨[], d, l, by simp, heq, h, by simp, ?_⟩
        intro x hx
        rcases List.mem_cons.mp hx with rfl | hx
        · exact le_refl _
        · exact hle x hx
      · refine Or.inr ⟨d :: l1, d', l2, by simp [hsplit], heq, lt_trans h hlt, ?_, ?_⟩
        · intro x hx
          rcases List.mem_cons.mp hx with rfl | hx
          · exact hlt
          · exact hfirst x hx
        · intro x hx
          rcases List.mem_cons.mp hx with rfl | hx
          · exact le_of_lt hlt
          · exact hmax x hx
    · rw [List.foldl_cons, hstep, if_neg h]
      push_neg at h
      rcases ih bs bo with ⟨heq, hle⟩ | ⟨l1, d', l2, hsplit, heq, hlt, hfirst, hmax⟩
      · refine Or.inl ⟨heq, ?_⟩
        intro x hx
        rcases List.mem_cons.mp hx with rfl | hx
        · exact h
        · exact hle x hx
      · refine Or.inr ⟨d :: l1, d', l2, by simp [hsplit], heq, hlt, ?_, ?_⟩
        · intro x hx
          rcases List.mem_cons.mp hx with rfl | hx
          · exact lt_of_le_of_lt h hlt
          · exact hfirst x hx
        · intro x hx
          rcases List.mem_cons.mp hx with rfl | hx
          · exact le_of_lt (lt_of_le_of_lt h hlt)
          · exact hmax x hx

lemma filterMap_alignOne (ds : List DiarSeg) (l : List TransSeg) :
    l.filterMap (alignOne ds) = (l.filter fun t => pyStrip t.text != "").map (segOf ds) := by
  induction l with
  | nil => rfl
  | cons t l ih =>
    by_cases h : pyStrip t.text = "" <;>
      simp [alignOne, h, ih, List.filter_cons, bne_iff_ne]

/-- Invariant of the loop of `identify_speaker`: either no registry entry's
similarity strictly exceeded the initial best and the accumulator is
unchanged, or the result names the first entry attaining the maximal
similarity. -/
lemma identifyFold_spec (sim : Embedding → Embedding → ℚ) (e : Embedding)
    (l : List (String × Embedding)) (m : Option String) (b : ℚ) :
    (l.foldl (identifyStep sim e) (m, b) = (m, b) ∧ ∀ p ∈ l, sim e p.2 ≤ b)
  ∨ (∃ l1 p l2, l = l1 ++ p :: l2
      ∧ l.foldl (identifyStep sim e) (m, b) = (some p.1, sim e p.2)
      ∧ b < sim e p.2
      ∧ (∀ q ∈ l1, sim e q.2 < sim e p.2)
      ∧ (∀ q ∈ l, sim e q.2 ≤ sim e p.2)) := by
  induction l generalizing m b with
  | nil => exact Or.inl ⟨rfl, by simp⟩
  | cons p l ih =>
    have hstep : ∀ a : Option String × ℚ,
        identifyStep sim e a p = if sim e p.2 > a.2 then (some p.1, sim e p.2) else a := by
      intro a; rfl
    by_cases h : sim e p.2 > b
    · rw [List.foldl_cons, hstep, if_pos h]
      rcases ih (some p.1) (sim e p.2) with ⟨heq, hle⟩ |
        ⟨l1, q, l2, hsplit, heq, hlt, hfirst, hmax⟩
      · refine Or.inr ⟨[], p, l, by simp, heq, h, by simp, ?_⟩
        intro x hx
        rcases List.mem_cons.mp hx with rfl | hx
        · exact le_refl _
        · exact hle x hx
      · refine Or.inr ⟨p :: l1, q, l2, by simp [hsplit], heq, lt_trans h hlt, ?_, ?_⟩
        · intro x hx
          rcases List.mem_cons.mp hx with rfl | hx
          · exact hlt
          · exact hfirst x hx
        · intro x hx
          rcases List.mem_cons.mp hx with rfl | hx
          · exact le_of_lt hlt
          · exact hmax x hx
    · rw [List.foldl_cons, hstep, if_neg h]
      push_neg at h
      rcases ih m b with ⟨heq, hle⟩ | ⟨l1, q, l2, hsplit, heq, hlt, hfirst, hmax⟩
      · refine Or.inl ⟨heq, ?_⟩
        intro x hx
        rcases List.mem_cons.mp hx with rfl | hx
        · exact h
        · exact hle x hx
      · refine Or.inr ⟨p :: l1, q, l2, by simp [hsplit], heq, hlt, ?_, ?_⟩
        · intro x hx
          rcases List.mem_cons.mp hx with rfl | hx
          · exact lt_of_le_of_lt h hlt
          · exact hfirst x hx
        · intro x hx
          rcases List.mem_cons.mp hx with rfl | hx
          · exact le_of_lt (lt_of_le_of_lt h hlt)
          · exact hmax x hx

/-- C2: `identify_speaker` returns a name iff some registry entry's cosine
similarity strictly exceeds the threshold, and the returned name attains the
maximal similarity; in particular a best similarity exactly equal to the
threshold yields `none`. -/
theorem identify_speaker_strict_threshold (sim : Embedding → Embedding → ℚ)
    (known : List (String × Embedding)) (e : Embedding) (threshold : ℚ) :
    ((identify_speaker sim known (some e) threshold).isSome
        ↔ ∃ p ∈ known, threshold < sim e p.2)
  ∧ (∀ n, identify_speaker sim known (some e) threshold = some n →
      ∃ emb, (n, emb) ∈ known ∧ threshold < sim e emb
        ∧ ∀ q ∈ known, sim e q.2 ≤ sim e emb) := by
  by_cases hk : known = []
  · subst hk; simp [identify_speaker]
  · have hfold := identifyFold_spec sim e known none threshold
    constructor
    · constructor
      · intro hsome
        rcases hfold with ⟨heq, _⟩ | ⟨l1, p, l2, hsplit, heq, hlt, _, _⟩
        · exfalso
          have hnone : identify_speaker sim known (some e) threshold = none := by
            simp [identify_speaker, hk, heq]
          rw [hnone] at hsome
          exact Bool.noConfusion hsome
        · exact ⟨p, hsplit.symm ▸ List.mem_append_right l1 (List.mem_cons_self p l2), hlt⟩
      · rintro ⟨p, hp, hlt⟩
        rcases hfold with ⟨heq, hle⟩ | ⟨l1, q, l2, hsplit, heq, hql, _, _⟩
        · exact absurd (lt_of_lt_of_le hlt (hle p hp)) (lt_irrefl _)
        · have hq : identify_speaker sim known (some e) threshold = some q.1 := by
            simp [identify_speaker, hk, heq]
          simp [hq]
    · intro n hn
      rcases hfold with ⟨heq, _⟩ | ⟨l1, q, l2, hsplit, heq, hlt, _, hmax⟩
      · have hnone : identify_speaker sim known (some e) threshold = none := by
          simp [identify_speaker, hk, heq]
        rw [hnone] at hn
        exact Option.noConfusion hn
      · have hq : identify_speaker sim known (some e) threshold = some q.1 := by
          simp [identify_speaker, hk, heq]
        rw [hq] at hn
        obtain rfl := Option.some.inj hn
        exact ⟨q.2, hsplit.symm ▸ List.mem_append_right l1 (List.mem_cons_self q l2),
          hlt, hmax⟩

/-- Witness for C2 at the spec's test vectors: registry `{Alice : e}` with the
query identical to the unit vector `e` (cosine similarity 1 > 0.8) is
identified as Alice, while a query whose similarity is exactly 0.8 yields
`none`. -/
theorem identify_speaker_strict_threshold_witness :
    identify_speaker dotSim [("Alice", [1, 0])] (some [1, 0]) (mkRat 8 10) = some "Alice"
  ∧ identify_speaker dotSim [("Alice", [mkRat 4 5, mkRat 3 5])] (some [1, 0]) (mkRat 8 10)
      = none := by
  constructor
  · have h := identify_speaker_strict_threshold dotSim [("Alice", [1, 0])] [1, 0] (mkRat 8 10)
    obtain ⟨n, hn⟩ := Option.isSome_iff_exists.mp (h.1.mpr
      ⟨("Alice", [1, 0]), by simp, by
        norm_num [dotSim, Rat.mkRat_eq_divInt, Rat.divInt_eq_div]⟩)
    obtain ⟨emb, hmem, _, _⟩ := h.2 n hn
    simp only [List.mem_singleton, Prod.mk.injEq] at hmem
    rw [hn, hmem.1]
  · have h := (identify_speaker_strict_threshold dotSim
      [("Alice", [mkRat 4 5, mkRat 3 5])] [1, 0] (mkRat 8 10)).1
    refine Option.not_isSome_iff_eq_none.mp fun hs => ?_
    rcases h.mp hs with ⟨p, hp, hlt⟩
    simp only [List.mem_singleton] at hp
    subst hp
    norm_num [dotSim, Rat.mkRat_eq_divInt, Rat.divInt_eq_div] at hlt

/-- C10: `identify_speaker` only ever returns a key of the registry; with an
empty registry or a `None` query it returns `none`. -/
theorem identify_speaker_registry_closure (sim : Embedding → Embedding → ℚ)
    (known : List (String × Embedding)) (embedding : Option Embedding) (threshold : ℚ) :
    (∀ n, identify_speaker sim known embedding threshold = some n →
        n ∈ known.map Prod.fst)
  ∧ identify_speaker sim [] embedding threshold = none
  ∧ identify_speaker sim known none threshold = none := by
  refine ⟨?_, ?_, rfl⟩
  · intro n hn
    cases embedding with
    | none => exact Option.noConfusion hn
    | some e =>
      by_cases hk : known = []
      · subst hk; simp [identify_speaker] at hn
      · rcases identifyFold_spec sim e known none threshold with ⟨heq, _⟩ |
          ⟨l1, p, l2, hsplit, heq, _, _, _⟩
        · simp [identify_speaker, hk, heq] at hn
        · have hq : identify_speaker sim known (some e) threshold = some p.1 := by
            simp [identify_speaker, hk, heq]
          rw [hq] at hn
          obtain rfl := Option.some.inj hn
          exact List.mem_map.mpr
            ⟨p, hsplit.symm ▸ List.mem_append_right l1 (List.mem_cons_self p l2), rfl⟩
  · cases embedding with
    | none => rfl
    | some e => simp [identify_speaker]

/-- Witness for C10: the empty registry yields `none`. -/
theorem identify_speaker_registry_closure_witness :
    identify_speaker dotSim [] (some [1]) (mkRat 8 10) = none :=
  (identify_speaker_registry_closure dotSim [] (some [1]) (mkRat 8 10)).2.1

/-- C1: on the diarization-available path, a span with non-empty stripped text
is labelled by the turn with the largest overlap — the first encountered one,
hence for turns pre-sorted by start time the earliest-starting one — with
confidence 0.8 when that best overlap is positive; when no turn overlaps the
span at all, the speaker is `"Unknown"` with confidence 0.3. -/
theorem align_assigns_largest_overlap_turn (ds : List DiarSeg) (t : TransSeg)
    (hsorted : ds.Pairwise fun a b => a.start ≤ b.start)
    (htext : pyStrip t.text ≠ "") :
    ((∀ d ∈ ds, turnOverlap t.start t.stop d = 0) →
      alignOne ds t = some ⟨"Unknown", t.start, t.stop, pyStrip t.text, mkRat 3 10⟩)
  ∧ ((∃ d ∈ ds, 0 < turnOverlap t.start t.stop d) →
      ∃ pre d post, ds = pre ++ d :: post
        ∧ alignOne ds t = some ⟨d.speaker, t.start, t.stop, pyStrip t.text, mkRat 8 10⟩
        ∧ (∀ d' ∈ ds, turnOverlap t.start t.stop d' ≤ turnOverlap t.start t.stop d)
        ∧ (∀ d' ∈ pre, turnOverlap t.start t.stop d' < turnOverlap t.start t.stop d)
        ∧ (∀ d' ∈ ds, turnOverlap t.start t.stop d' = turnOverlap t.start t.stop d →
            d.start ≤ d'.start)) := by
  constructor
  · intro hall
    rcases bestFold_spec t.start t.stop ds "Unknown" 0 with ⟨heq, _⟩ |
      ⟨l1, d, l2, hsplit, _, hlt, _, _⟩
    · have hfind : findBest t.start t.stop ds = ("Unknown", 0) := heq
      simp [alignOne, htext, segOf, hfind]
    · exfalso
      have hd : d ∈ ds := hsplit.symm ▸ List.mem_append_right l1 (List.mem_cons_self d l2)
      rw [hall d hd] at hlt
      exact absurd hlt (lt_irrefl 0)
  · rintro ⟨d0, hd0, hpos⟩
    rcases bestFold_spec t.start t.stop ds "Unknown" 0 with ⟨_, hle⟩ |
      ⟨l1, d, l2, hsplit, heq, hlt, hfirst, hmax⟩
    · exact absurd (lt_of_lt_of_le hpos (hle d0 hd0)) (lt_irrefl 0)
    · refine ⟨l1, d, l2, hsplit, ?_, hmax, hfirst, ?_⟩
      · have hfind : findBest t.start t.stop ds = (d.speaker, turnOverlap t.start t.stop d) := heq
        simp [alignOne, htext, segOf, hfind, hlt]
      · intro d' hd' hovq
        rcases List.mem_append.mp (hsplit ▸ hd') with h1 | h2
        · exact absurd hovq (ne_of_lt (hfirst d' h1))
        · rcases List.mem_cons.mp h2 with rfl | h2
          · exact le_refl _
          · have hpair := List.pairwise_append.mp (hsplit ▸ hsorted)
            exact (List.pairwise_cons.mp hpair.2.1).1 d' h2

/-- Witness for C1 at the spec's no-overlap test vector: span (0,2) against
the single turn (5,6,"A") is labelled `"Unknown"` with confidence 0.3. -/
theorem align_assigns_largest_overlap_turn_witness :
    alignOne [⟨5, 6, "A"⟩] ⟨0, 2, "hi"⟩
      = some ⟨"Unknown", 0, 2, "hi", mkRat 3 10⟩ := by
  have h := (align_assigns_largest_overlap_turn [⟨5, 6, "A"⟩] ⟨0, 2, "hi"⟩
    (by simp) (by decide)).1 ?_
  · simpa [show pyStrip "hi" = "hi" from by decide] using h
  · intro d hd
    simp only [List.mem_singleton] at hd
    subst hd
    norm_num [turnOverlap, overlapDuration, max_def, min_def]

/-- C4: when diarization is unavailable, every transcript span becomes a
`Speaker_1` segment with confidence 0.5, with no overlap computation. -/
theorem align_diarization_unavailable (transcription : Transcription) :
    align_transcription_with_diarization transcription none
      = transcription.segments.map fun t =>
          ⟨"Speaker_1", t.start, t.stop, t.text, mkRat 1 2⟩ := rfl

/-- C5 counterexample: with diarization unavailable, a span whose stripped
text is empty still yields a segment, carrying the raw untrimmed text. -/
theorem align_text_filter_cex :
    align_transcription_with_diarization ⟨"", [⟨0, 1, " "⟩]⟩ none
      = [⟨"Speaker_1", 0, 1, " ", mkRat 1 2⟩]
  ∧ pyStrip " " = "" := ⟨rfl, by decide⟩

/-- C5 amended: on the diarization-available path a span yields a segment
exactly when its stripped text is non-empty, and every produced segment's
text is the non-empty stripped text of its span; the unavailable path (see
the counterexample) keeps every span. -/
theorem align_text_filter_amended (tr : Transcription) (ds : List DiarSeg) :
    align_transcription_with_diarization tr (some ds) = tr.segments.filterMap (alignOne ds)
  ∧ (∀ t : TransSeg, (alignOne ds t = none ↔ pyStrip t.text = ""))
  ∧ (∀ s ∈ align_transcription_with_diarization tr (some ds),
      s.text ≠ "" ∧ ∃ t ∈ tr.segments, s.text = pyStrip t.text) := by
  have h1 : align_transcription_with_diarization tr (some ds)
      = tr.segments.filterMap (alignOne ds) := by
    by_cases h : tr.segments = []
    · simp [align_transcription_with_diarization, h, fallbackSegments]
    · simp [align_transcription_with_diarization, h]
  have h2 : ∀ t : TransSeg, (alignOne ds t = none ↔ pyStrip t.text = "") := by
    intro t
    by_cases h : pyStrip t.text = "" <;> simp [alignOne, h]
  refine ⟨h1, h2, ?_⟩
  intro s hs
  rw [h1] at hs
  rcases List.mem_filterMap.mp hs with ⟨t, ht, hsome⟩
  have hne : pyStrip t.text ≠ "" := by
    intro he
    rw [(h2 t).mpr he] at hsome
    exact Option.noConfusion hsome
  have hseq : segOf ds t = s := by
    simpa [alignOne, hne] using hsome
  refine ⟨?_, t, ht, ?_⟩
  · rw [← hseq]; exact hne
  · rw [← hseq]; rfl

/-- Witness for C5's amended claim: a whitespace-only span produces no
segment on the diarization-available path. -/
theorem align_text_filter_amended_witness :
    align_transcription_with_diarization ⟨"hi", [⟨0, 2, " "⟩]⟩ (some [⟨0, 1, "A"⟩]) = [] := by
  rw [(align_text_filter_amended ⟨"hi", [⟨0, 2, " "⟩]⟩ [⟨0, 1, "A"⟩]).1]
  rfl

lemma mem_active_disconnect (st : ManagerState) (c m : String) :
    m ∈ (disconnect st c).active ↔ m ∈ st.active ∧ m ≠ c := by
  simp [disconnect, List.mem_filter, bne_iff_ne]

lemma disconnected_disconnect_self (st : ManagerState) (c : String) :
    c ∉ (disconnect st c).active ∧ ∀ p ∈ (disconnect st c).sessions, c ∉ p.2 := by
  constructor
  · intro h
    exact ((mem_active_disconnect st c c).mp h).2 rfl
  · intro p hp hc
    rcases List.mem_map.mp hp with ⟨q, _, rfl⟩
    rcases List.mem_filter.mp hc with ⟨_, hbeq⟩
    simp at hbeq

lemma disconnected_mono_disconnect (st : ManagerState) (c m : String)
    (h : m ∉ st.active ∧ ∀ p ∈ st.sessions, m ∉ p.2) :
    m ∉ (disconnect st c).active ∧ ∀ p ∈ (disconnect st c).sessions, m ∉ p.2 := by
  constructor
  · intro hm
    exact h.1 ((mem_active_disconnect st c m).mp hm).1
  · intro p hp hm
    rcases List.mem_map.mp hp with ⟨q, hq, rfl⟩
    exact h.2 q hq (List.mem_of_mem_filter hm)

/-- The three possible outcomes of one unicast send: unknown connection
(no-op), transport failure (the connection is disconnected, nothing
delivered), successful delivery. -/
lemma send_personal_message_cases (failing : String → Bool) (msg : ServerMessage)
    (cid : String) (st : ManagerState) (log : DeliveryLog) :
    (cid ∉ st.active ∧ send_personal_message failing msg cid st log = (st, log))
  ∨ (cid ∈ st.active ∧ failing cid = true
      ∧ send_personal_message failing msg cid st log = (disconnect st cid, log))
  ∨ (cid ∈ st.active ∧ failing cid = false
      ∧ send_personal_message failing msg cid st log = (st, log ++ [(cid, msg)])) := by
  by_cases h1 : cid ∈ st.active
  · by_cases h2 : failing cid = true
    · exact Or.inr (Or.inl ⟨h1, h2, by simp [send_personal_message, h1, h2]⟩)
    · have h2' : failing cid = false := by simpa using h2
      exact Or.inr (Or.inr ⟨h1, h2', by simp [send_personal_message, h1, h2']⟩)
  · exact Or.inl ⟨h1, by simp [send_personal_message, h1]⟩

/-- Invariants of a whole broadcast iteration: previously logged deliveries
persist; every non-failing active member receives the message; fully
disconnected connections stay disconnected; a failing active member ends up
fully disconnected; non-failing active connections stay active; and every
delivered entry is either pre-existing or carries this broadcast's message. -/
lemma broadcastFold_spec (failing : String → Bool) (msg : ServerMessage)
    (ms : List String) (st : ManagerState) (log : DeliveryLog)
    (r : ManagerState × DeliveryLog)
    (hr : ms.foldl (fun acc cid => send_personal_message failing msg cid acc.1 acc.2)
        (st, log) = r) :
    (∀ x ∈ log, x ∈ r.2)
  ∧ (∀ m ∈ ms, m ∈ st.active → failing m = false → (m, msg) ∈ r.2)
  ∧ (∀ m, (m ∉ st.active ∧ ∀ p ∈ st.sessions, m ∉ p.2) →
      (m ∉ r.1.active ∧ ∀ p ∈ r.1.sessions, m ∉ p.2))
  ∧ (∀ m ∈ ms, m ∈ st.active → failing m = true →
      (m ∉ r.1.active ∧ ∀ p ∈ r.1.sessions, m ∉ p.2))
  ∧ (∀ m, failing m = false → m ∈ st.active → m ∈ r.1.active)
  ∧ (∀ x ∈ r.2, x ∈ log ∨ x.2 = msg) := by
  induction ms generalizing st log with
  | nil =>
    simp only [List.foldl_nil] at hr
    subst hr
    exact ⟨fun x hx => hx, by simp, fun m h => h, by simp, fun m _ h => h,
      fun x hx => Or.inl hx⟩
  | cons c ms ih =>
    simp only [List.foldl_cons] at hr
    rcases send_personal_message_cases failing msg c st log with
      ⟨hc, hs⟩ | ⟨hc, hf, hs⟩ | ⟨hc, hf, hs⟩
    · rw [hs] at hr
      have h := ih st log hr
      refine ⟨h.1, ?_, h.2.2.1, ?_, h.2.2.2.2.1, h.2.2.2.2.2⟩
      · intro m hm ha hfm
        rcases List.mem_cons.mp hm with rfl | hm
        · exact absurd ha hc
        · exact h.2.1 m hm ha hfm
      · intro m hm ha hfm
        rcases List.mem_cons.mp hm with rfl | hm
        · exact absurd ha hc
        · exact h.2.2.2.1 m hm ha hfm
    · rw [hs] at hr
      have h := ih (disconnect st c) log hr
      refine ⟨h.1, ?_, ?_, ?_, ?_, h.2.2.2.2.2⟩
      · intro m hm ha hfm
        rcases List.mem_cons.mp hm with rfl | hm
        · rw [hfm] at hf
          exact Bool.noConfusion hf
        · have hne : m ≠ c := fun he => by rw [he, hf] at hfm; exact Bool.noConfusion hfm
          exact h.2.1 m hm ((mem_active_disconnect st c m).mpr ⟨ha, hne⟩) hfm
      · intro m hdm
        exact h.2.2.1 m (disconnected_mono_disconnect st c m hdm)
      · intro m hm ha hfm
        by_cases hmc : m = c
        · subst hmc
          exact h.2.2.1 m (disconnected_disconnect_self st m)
        · rcases List.mem_cons.mp hm with rfl | hm
          · exact absurd rfl hmc
          · exact h.2.2.2.1 m hm ((mem_active_disconnect st c m).mpr ⟨ha, hmc⟩) hfm
      · intro m hfm ha
        have hne : m ≠ c := fun he => by rw [he, hf] at hfm; exact Bool.noConfusion hfm
        exact h.2.2.2.2.1 m hfm ((mem_active_disconnect st c m).mpr ⟨ha, hne⟩)
    · rw [hs] at hr
      have h := ih st (log ++ [(c, msg)]) hr
      refine ⟨?_, ?_, h.2.2.1, ?_, h.2.2.2.2.1, ?_⟩
      · intro x hx
        exact h.1 x (List.mem_append_left _ hx)
      · intro m hm ha hfm
        rcases List.mem_cons.mp hm with rfl | hm
        · exact h.1 (m, msg) (List.mem_append_right _ (List.mem_singleton.mpr rfl))
        · exact h.2.1 m hm ha hfm
      · intro m hm ha hfm
        rcases List.mem_cons.mp hm with rfl | hm
        · rw [hfm] at hf
          exact Bool.noConfusion hf
        · exact h.2.2.2.1 m hm ha hfm
      · intro x hx
        rcases h.2.2.2.2.2 x hx with hxl | hxm
        · rcases List.mem_append.mp hxl with h1 | h2
          · exact Or.inl h1
          · simp only [List.mem_singleton] at h2
            subst h2
            exact Or.inr rfl
        · exact Or.inr hxm

/-- C3: a delivery failure during a broadcast disconnects only the failing
member — it is removed from the connection registry and from every session's
membership set — while every other active member still receives the message
and stays connected. -/
theorem broadcast_failure_isolation (failing : String → Bool) (msg : ServerMessage)
    (sid : String) (st : ManagerState) (members : List String)
    (hm : lookupSession st sid = some members) :
    (∀ m ∈ members, m ∈ st.active → failing m = false →
      (m, msg) ∈ (broadcast_to_session failing msg sid st []).2)
  ∧ (∀ m ∈ members, m ∈ st.active → failing m = true →
      m ∉ (broadcast_to_session failing msg sid st []).1.active
      ∧ ∀ p ∈ (broadcast_to_session failing msg sid st []).1.sessions, m ∉ p.2)
  ∧ (∀ m, failing m = false → m ∈ st.active →
      m ∈ (broadcast_to_session failing msg sid st []).1.active) := by
  have hb : broadcast_to_session failing msg sid st []
      = members.foldl (fun acc cid => send_personal_message failing msg cid acc.1 acc.2)
          (st, []) := by
    simp [broadcast_to_session, hm]
  have h := broadcastFold_spec failing msg members st []
    (members.foldl (fun acc cid => send_personal_message failing msg cid acc.1 acc.2)
      (st, [])) rfl
  rw [hb]
  exact ⟨h.2.1, h.2.2.2.1, fun m hfm ha => h.2.2.2.2.1 m hfm ha⟩

/-- Witness for C3 at the spec's test vector: a session with three
connections, one of which fails during the broadcast — the other two still
receive the message and the failing one is removed from the registry. -/
theorem broadcast_failure_isolation_witness :
    ("c1", ServerMessage.other "ping") ∈
      (broadcast_to_session (fun c => c == "c2") (.other "ping") "S"
        ⟨["c1", "c2", "c3"], [("S", ["c1", "c2", "c3"])]⟩ []).2
  ∧ ("c3", ServerMessage.other "ping") ∈
      (broadcast_to_session (fun c => c == "c2") (.other "ping") "S"
        ⟨["c1", "c2", "c3"], [("S", ["c1", "c2", "c3"])]⟩ []).2
  ∧ "c2" ∉ (broadcast_to_session (fun c => c == "c2") (.other "ping") "S"
        ⟨["c1", "c2", "c3"], [("S", ["c1", "c2", "c3"])]⟩ []).1.active := by
  have h := broadcast_failure_isolation (fun c => c == "c2") (.other "ping") "S"
    ⟨["c1", "c2", "c3"], [("S", ["c1", "c2", "c3"])]⟩ ["c1", "c2", "c3"] rfl
  exact ⟨h.1 "c1" (by simp) (by simp) (by decide),
    h.1 "c3" (by simp) (by simp) (by decide),
    (h.2.1 "c2" (by simp) (by simp) (by decide)).1⟩

lemma lookupStore_modify (store : SessionStore) (sid : String)
    (f : StoredSession → StoredSession) :
    lookupStore (store.map fun p => if p.1 == sid then (p.1, f p.2) else p) sid
      = (lookupStore store sid).map f := by
  induction store with
  | nil => rfl
  | cons p l ih =>
    by_cases h : p.1 = sid
    · simp [lookupStore, List.find?_cons, h]
    · have hb : (p.1 == sid) = false := by simp [h]
      simp only [List.map_cons, lookupStore, List.find?_cons] at ih ⊢
      rw [if_neg (by simp [h]), hb]
      exact ih

lemma lookupStore_setSessionStatus (store : SessionStore) (sid status : String) :
    lookupStore (setSessionStatus store sid status) sid
      = (lookupStore store sid).map fun doc => ⟨status, doc.segments⟩ :=
  lookupStore_modify store sid fun doc => ⟨status, doc.segments⟩

lemma lookupStore_add_segment (store : SessionStore) (sid : String) (seg : SpeakerSegment) :
    lookupStore (add_segment store sid seg) sid
      = (lookupStore store sid).map fun doc => ⟨doc.status, doc.segments ++ [seg]⟩ :=
  lookupStore_modify store sid fun doc => ⟨doc.status, doc.segments ++ [seg]⟩

lemma lookupStore_foldl_add (segs : List SpeakerSegment) (store : SessionStore)
    (sid : String) :
    lookupStore (segs.foldl (fun st seg => add_segment st sid seg) store) sid
      = (lookupStore store sid).map fun doc => ⟨doc.status, doc.segments ++ segs⟩ := by
  induction segs generalizing store with
  | nil =>
    cases h : lookupStore store sid <;> simp [h]
  | cons seg segs ih =>
    rw [List.foldl_cons, ih, lookupStore_add_segment]
    cases h : lookupStore store sid <;> simp [h]

lemma lookupSession_filter_self (active : List String)
    (sessions : List (String × List String)) (sid : String) :
    lookupSession ⟨active, sessions.filter fun p => p.1 != sid⟩ sid = none := by
  simp only [lookupSession, Option.map_eq_none']
  induction sessions with
  | nil => rfl
  | cons p l ih =>
    by_cases h : p.1 = sid
    · simp [List.filter_cons, h, ih]
    · simp [List.filter_cons, h, List.find?_cons, ih]

lemma broadcast_to_session_not_found (failing : String → Bool) (msg : ServerMessage)
    (sid : String) (st : ManagerState) (log : DeliveryLog)
    (h : lookupSession st sid = none) :
    broadcast_to_session failing msg sid st log = (st, log) := by
  simp [broadcast_to_session, h]

/-- C7: stopping a session marks the stored document `"completed"`,
broadcasts `session_stopped` to the session's members, and clears the
membership set; a later audio chunk for the same id is still persisted in
full, while its `new_segments` broadcast reaches nobody. -/
theorem stop_session_lifecycle (failing : String → Bool) (sys : SystemState)
    (sid : String) (doc : StoredSession) (members : List String)
    (hdoc : lookupStore sys.store sid = some doc)
    (hm : lookupSession sys.conns sid = some members) :
    lookupStore (handle_stop_session failing sys sid).1.store sid
        = some ⟨"completed", doc.segments⟩
  ∧ (∀ m ∈ members, m ∈ sys.conns.active → failing m = false →
      (m, ServerMessage.session_stopped sid) ∈ (handle_stop_session failing sys sid).2)
  ∧ lookupSession (handle_stop_session failing sys sid).1.conns sid = none
  ∧ (∀ segs : List SpeakerSegment,
      (handle_audio_data failing (handle_stop_session failing sys sid).1 sid segs).2 = []
      ∧ lookupStore
          (handle_audio_data failing (handle_stop_session failing sys sid).1 sid segs).1.store
          sid
        = some ⟨"completed", doc.segments ++ segs⟩) := by
  have hstore : lookupStore (handle_stop_session failing sys sid).1.store sid
      = some ⟨"completed", doc.segments⟩ := by
    simp [handle_stop_session, lookupStore_setSessionStatus, hdoc]
  have hb : broadcast_to_session failing (.session_stopped sid) sid sys.conns []
      = members.foldl
          (fun acc cid => send_personal_message failing (.session_stopped sid) cid acc.1 acc.2)
          (sys.conns, []) := by
    simp [broadcast_to_session, hm]
  have hfold := broadcastFold_spec failing (.session_stopped sid) members sys.conns []
    (members.foldl
      (fun acc cid => send_personal_message failing (.session_stopped sid) cid acc.1 acc.2)
      (sys.conns, [])) rfl
  have hlog : (handle_stop_session failing sys sid).2
      = (broadcast_to_session failing (.session_stopped sid) sid sys.conns []).2 := rfl
  have hcleared : lookupSession (handle_stop_session failing sys sid).1.conns sid = none := by
    simp only [handle_stop_session]
    exact lookupSession_filter_self _ _ sid
  refine ⟨hstore, ?_, hcleared, ?_⟩
  · intro m hmem ha hf
    rw [hlog, hb]
    exact hfold.2.1 m hmem ha hf
  · intro segs
    constructor
    · by_cases hseg : segs = []
      · simp [handle_audio_data, hseg]
      · simp [handle_audio_data, hseg,
          broadcast_to_session_not_found failing _ sid _ [] hcleared]
    · by_cases hseg : segs = []
      · simp [handle_audio_data, hseg, lookupStore_foldl_add, hstore]
      · simp [handle_audio_data, hseg, lookupStore_foldl_add, hstore,
          broadcast_to_session_not_found failing _ sid _ [] hcleared]

/-- Witness for C7: one member, a stale stored session, no failures. -/
theorem stop_session_lifecycle_witness :
    lookupStore (handle_stop_session (fun _ => false)
        ⟨⟨["c1"], [("S", ["c1"])]⟩, [("S", ⟨"active", []⟩)]⟩ "S").1.store "S"
      = some ⟨"completed", []⟩
  ∧ ("c1", ServerMessage.session_stopped "S") ∈
      (handle_stop_session (fun _ => false)
        ⟨⟨["c1"], [("S", ["c1"])]⟩, [("S", ⟨"active", []⟩)]⟩ "S").2
  ∧ lookupSession (handle_stop_session (fun _ => false)
        ⟨⟨["c1"], [("S", ["c1"])]⟩, [("S", ⟨"active", []⟩)]⟩ "S").1.conns "S" = none := by
  have h := stop_session_lifecycle (fun _ => false)
    ⟨⟨["c1"], [("S", ["c1"])]⟩, [("S", ⟨"active", []⟩)]⟩ "S" ⟨"active", []⟩ ["c1"]
    rfl rfl
  exact ⟨h.1, h.2.1 "c1" (by simp) (by simp) rfl, h.2.2.1⟩

lemma align_available_eq (tr : Transcription) (ds : List DiarSeg) :
    align_transcription_with_diarization tr (some ds)
      = (tr.segments.filter fun t => pyStrip t.text != "").map (segOf ds) := by
  by_cases h : tr.segments = []
  · simp [align_transcription_with_diarization, h, fallbackSegments]
  · simp [align_transcription_with_diarization, h, filterMap_alignOne]

/-- C8: within one chunk the aligned segments follow the transcript-span
order and keep each span's start and end times, and the `new_segments` event
broadcast by the audio handler carries exactly the newly appended segments of
that chunk, which are appended to the stored document in the same order. -/
theorem segments_order_preserved (tr : Transcription) (ds : List DiarSeg)
    (failing : String → Bool) (sys : SystemState) (sid : String)
    (doc : StoredSession) (hdoc : lookupStore sys.store sid = some doc) :
    align_transcription_with_diarization tr (some ds)
        = (tr.segments.filter fun t => pyStrip t.text != "").map (segOf ds)
  ∧ (∀ t : TransSeg, (segOf ds t).start_time = t.start ∧ (segOf ds t).end_time = t.stop)
  ∧ (∀ segments : List SpeakerSegment,
      lookupStore (handle_audio_data failing sys sid segments).1.store sid
          = some ⟨doc.status, doc.segments ++ segments⟩
      ∧ ∀ x ∈ (handle_audio_data failing sys sid segments).2,
          x.2 = ServerMessage.new_segments sid segments) := by
  refine ⟨align_available_eq tr ds, fun t => ⟨rfl, rfl⟩, ?_⟩
  intro segments
  constructor
  · by_cases hseg : segments = []
    · simp [handle_audio_data, hseg, lookupStore_foldl_add, hdoc]
    · cases hls : lookupSession sys.conns sid with
      | none =>
        simp [handle_audio_data, hseg, lookupStore_foldl_add, hdoc,
          broadcast_to_session_not_found failing _ sid _ [] hls]
      | some members =>
        simp [handle_audio_data, hseg, lookupStore_foldl_add, hdoc]
  · intro x hx
    by_cases hseg : segments = []
    · simp [handle_audio_data, hseg] at hx
    · cases hls : lookupSession sys.conns sid with
      | none =>
        rw [show (handle_audio_data failing sys sid segments).2 = [] by
          simp [handle_audio_data, hseg,
            broadcast_to_session_not_found failing _ sid _ [] hls]] at hx
        exact absurd hx (List.not_mem_nil x)
      | some members =>
        have hlog : (handle_audio_data failing sys sid segments).2
            = (broadcast_to_session failing (.new_segments sid segments) sid sys.conns []).2 := by
          simp [handle_audio_data, hseg]
        have hb : broadcast_to_session failing (.new_segments sid segments) sid sys.conns []
            = members.foldl
                (fun acc cid =>
                  send_personal_message failing (.new_segments sid segments) cid acc.1 acc.2)
                (sys.conns, []) := by
          simp [broadcast_to_session, hls]
        have hfold := broadcastFold_spec failing (.new_segments sid segments) members
          sys.conns []
          (members.foldl
            (fun acc cid =>
              send_personal_message failing (.new_segments sid segments) cid acc.1 acc.2)
            (sys.conns, [])) rfl
        rw [hlog, hb] at hx
        rcases hfold.2.2.2.2.2 x hx with hempty | hmsg
        · exact absurd hempty (List.not_mem_nil x)
        · exact hmsg

/-- Witness for C8: one processed segment is appended to the stored session
document. -/
theorem segments_order_preserved_witness :
    lookupStore (handle_audio_data (fun _ => false)
        ⟨⟨[], []⟩, [("S", ⟨"active", []⟩)]⟩ "S"
        [⟨"A", 0, 1, "x", mkRat 8 10⟩]).1.store "S"
      = some ⟨"active", [⟨"A", 0, 1, "x", mkRat 8 10⟩]⟩ := by
  have h := segments_order_preserved ⟨"", []⟩ [] (fun _ => false)
    ⟨⟨[], []⟩, [("S", ⟨"active", []⟩)]⟩ "S" ⟨"active", []⟩ rfl
  simpa using (h.2.2 [⟨"A", 0, 1, "x", mkRat 8 10⟩]).1

lemma align_empty_transcription (d : Option (List DiarSeg)) (txt : String) :
    align_transcription_with_diarization ⟨txt, []⟩ d = [] := by
  cases d <;> simp [align_transcription_with_diarization, fallbackSegments]

/-- C6: a transcription-stage failure is caught and yields the empty
transcription, the chunk completing with an empty segment list; a
diarization-stage failure is indistinguishable from running without a
diarizer (the degraded mode); and even a raised `RuntimeError` (Whisper not
initialized) is caught at chunk level, so `process_audio_chunk` always
returns a list instead of propagating a stage failure. -/
theorem process_chunk_stage_failure_degrades (p : Processor)
    (decoded : Except Unit (List ℚ)) (rawT : Except Unit Transcription)
    (rawD : Except Unit (List DiarSeg)) (rawEmb : ℚ → ℚ → Option Embedding) :
    (p.whisper_model ≠ none →
      transcribe_audio p (.error ()) = .ok emptyTranscription
      ∧ process_audio_chunk p decoded (.error ()) rawD rawEmb = [])
  ∧ (diarize_audio p (.error ()) = none
      ∧ process_audio_chunk p decoded rawT (.error ()) rawEmb
          = process_audio_chunk { p with diarization_pipeline := none }
              decoded rawT rawD rawEmb)
  ∧ (p.whisper_model = none → process_audio_chunk p decoded rawT rawD rawEmb = []) := by
  have hd1 : diarize_audio p (Except.error ()) = none := by
    cases hdp : p.diarization_pipeline <;> simp [diarize_audio, hdp]
  refine ⟨?_, ⟨hd1, ?_⟩, ?_⟩
  · intro hw
    cases hwm : p.whisper_model with
    | none => exact absurd hwm hw
    | some u =>
      refine ⟨by simp [transcribe_audio, hwm], ?_⟩
      by_cases ha : (preprocess_audio decoded).length = 0
      · simp [process_audio_chunk, process_audio_chunk_body, ha]
      · simp [process_audio_chunk, process_audio_chunk_body, ha, transcribe_audio, hwm,
          align_empty_transcription, emptyTranscription, identifyPass]
  · cases hwm : p.whisper_model with
    | none =>
      simp [process_audio_chunk, process_audio_chunk_body, transcribe_audio, hwm]
    | some u =>
      cases hdp : p.diarization_pipeline with
      | none =>
        cases rawT <;>
          (simp [process_audio_chunk, process_audio_chunk_body, transcribe_audio, hwm,
            diarize_audio, hdp, identifyPass]) <;> rfl
      | some v =>
        cases rawT <;>
          (simp [process_audio_chunk, process_audio_chunk_body, transcribe_audio, hwm,
            diarize_audio, hdp, identifyPass]) <;> rfl
  · intro hw
    by_cases ha : (preprocess_audio decoded).length = 0
    · simp [process_audio_chunk, process_audio_chunk_body, ha]
    · simp [process_audio_chunk, process_audio_chunk_body, ha, transcribe_audio, hw]

/-- Witness for C6: a failing transcription call on a one-sample chunk
produces the empty segment list. -/
theorem process_chunk_stage_failure_degrades_witness :
    process_audio_chunk ⟨some (), some (), some (), 16000, [], fun _ _ => 0⟩
      (.ok [0]) (.error ()) (.ok []) (fun _ _ => none) = [] :=
  ((process_chunk_stage_failure_degrades
    ⟨some (), some (), some (), 16000, [], fun _ _ => 0⟩
    (.ok [0]) (.error ()) (.ok []) (fun _ _ => none)).1 (by simp)).2

/-- C9: when a segment's extracted audio window holds fewer samples than half
the sample rate (0.5 s), no embedding is produced — the external embedding
model is never invoked past the length gate — speaker identification is not
run and the segment keeps its alignment-derived speaker id; the
identification loop of `process_audio_chunk` treats each segment
independently through `identifySegment`. -/
theorem embedding_window_gate (p : Processor) (rawEmb : ℚ → ℚ → Option Embedding)
    (audio : List ℚ) (seg : SpeakerSegment)
    (hshort : ((pySlice audio (pyInt (seg.start_time * p.sample_rate))
          (pyInt (seg.end_time * p.sample_rate))).length : ℚ)
        < (p.sample_rate : ℚ) * mkRat 1 2) :
    get_speaker_embedding p.embedding_model (rawEmb seg.start_time seg.end_time)
        p.sample_rate audio seg.start_time seg.end_time = none
  ∧ identifySegment p rawEmb audio seg = seg
  ∧ identifyPass p rawEmb audio
      = fun segments => segments.map (identifySegment p rawEmb audio) := by
  have hget : get_speaker_embedding p.embedding_model (rawEmb seg.start_time seg.end_time)
      p.sample_rate audio seg.start_time seg.end_time = none := by
    cases hm : p.embedding_model with
    | none => simp [get_speaker_embedding]
    | some u => simp [get_speaker_embedding, hshort]
  refine ⟨hget, ?_, rfl⟩
  simp [identifySegment, hget]

/-- Witness for C9: an empty audio buffer gives a zero-length window, so the
segment survives the identification pass unchanged. -/
theorem embedding_window_gate_witness :
    identifySegment ⟨some (), some (), some (), 16000, [], fun _ _ => 0⟩
      (fun _ _ => some [1]) [] ⟨"S1", 0, 1, "x", mkRat 1 2⟩
      = ⟨"S1", 0, 1, "x", mkRat 1 2⟩ := by
  have h := embedding_window_gate ⟨some (), some (), some (), 16000, [], fun _ _ => 0⟩
    (fun _ _ => some [1]) [] ⟨"S1", 0, 1, "x", mkRat 1 2⟩ ?_
  · exact h.2.1
  · simp only [pySlice]
    norm_num [Rat.mkRat_eq_divInt, Rat.divInt_eq_div]

end SpeechRec
